import Mathlib

/-!
Shallow embedding of the HydraQL orchestration core (src/hydraql.py) and
verification of its specification claims.

Python strings are modelled as `List Char`; `str.upper` / `str.lower` are
modelled per character (exact for the ASCII severity vocabulary the program
handles), `str.strip` drops leading and trailing whitespace characters.
Machine-level details (file descriptors, process ids) are abstracted to the
values the control flow inspects.
-/

/-- Python `str`, modelled as a list of characters. -/
abbrev Str := List Char

/-- Python `s.upper()` (per-character case mapping). -/
def pyUpper (s : Str) : Str := s.map Char.toUpper

/-- Python `s.lower()` (per-character case mapping). -/
def pyLower (s : Str) : Str := s.map Char.toLower

/-- Python `s.strip()`: remove leading and trailing whitespace. -/
def pyStrip (s : Str) : Str :=
  ((s.dropWhile Char.isWhitespace).reverse.dropWhile Char.isWhitespace).reverse

/-- Python `needle in hay` for strings: substring containment. -/
def containsSub (hay needle : Str) : Bool :=
  needle.isPrefixOf hay ||
    match hay with
    | [] => false
    | _ :: t => containsSub t needle

/-- hydraql.py `map_loose` (lines 312-317): normalize an analyzer severity
word to a tier; `error` to CRITICAL, `warning` to HIGH, `note` to MEDIUM,
anything else is uppercased unchanged. -/
def map_loose (sev : Str) : Str :=
  let s := pyLower (pyStrip sev)
  if s = "error".toList then "CRITICAL".toList
  else if s = "warning".toList then "HIGH".toList
  else if s = "note".toList then "MEDIUM".toList
  else pyUpper sev

/-- hydraql.py `severity_matches` (lines 319-325): empty candidate never
matches; strict mode compares the stripped uppercased candidate and target
for equality; loose mode accepts when the `map_loose` tier of the candidate
equals the target or the target is a substring of the candidate. -/
def severity_matches (candidate target : Str) (strict : Bool) : Bool :=
  if candidate.isEmpty then false
  else
    let cand := pyUpper (pyStrip candidate)
    let targ := pyUpper (pyStrip target)
    if strict then cand == targ
    else (map_loose cand == targ) || containsSub cand targ

/-- Python truthiness of the `severity_filter` argument (`None` or a string):
truthy exactly when it is a non-empty string. Guards such as
`if severity_filter and ...` in hydraql.py test this. -/
def sevActive (f : Option Str) : Bool :=
  match f with
  | some t => !t.isEmpty
  | none => false

/-- hydraql.py `merge_csv` fixed header row (line 514). -/
def fixed_header : List Str :=
  ["Name", "Description", "Severity", "Message", "Path",
   "Start line", "Start column", "End line", "End column"].map String.toList

/-- The row filter of `merge_csv` (line 522) and `count_csv_findings`
(line 375): a data row is dropped exactly when the severity filter is truthy,
the row has more than two columns, and column 2 fails `severity_matches`. -/
def csvKeepRow (f : Option Str) (strict : Bool) (row : List Str) : Bool :=
  !(sevActive f && decide (2 < row.length) &&
    !(severity_matches (row.getD 2 []) (f.getD []) strict))

/-- Rows contributed by one raw CSV file (lines 518-524): the file's own
first (header) row is skipped, remaining rows pass the severity filter. -/
def csvFileRows (f : Option Str) (strict : Bool) (rows : List (List Str)) :
    List (List Str) :=
  match rows with
  | [] => []
  | _ :: rest => rest.filter (csvKeepRow f strict)

/-- Data rows accumulated by `merge_csv` (lines 515-524) over the result
files, in file order; a `none` entry is a result path that is falsy or does
not exist (line 517) and is skipped. -/
def merge_csv_rows (files : List (Option (List (List Str))))
    (f : Option Str) (strict : Bool) : List (List Str) :=
  ((files.filterMap id).map (csvFileRows f strict)).flatten

/-- hydraql.py `merge_csv` (lines 513-527): the written output (header row
followed by the surviving data rows) and the returned row count. -/
def merge_csv (files : List (Option (List (List Str))))
    (f : Option Str) (strict : Bool) : List (List Str) × Nat :=
  (fixed_header :: merge_csv_rows files f strict,
   (merge_csv_rows files f strict).length)

/-- hydraql.py `count_csv_findings` (lines 368-380): count of post-filter
data rows; any read failure (modelled by `none`) yields zero. -/
def count_csv_findings (content : Option (List (List Str)))
    (f : Option Str) (strict : Bool) : Nat :=
  match content with
  | none => 0
  | some rows => (csvFileRows f strict rows).length

/-- The four lock removal strategies of `force_delete_lock` (lines 177-203),
in source order. -/
inductive LockStrategy where
  | plainDelete
  | chmodDelete
  | truncateDelete
  | renameStale
deriving DecidableEq, Repr

/-- Outcomes of the individual filesystem calls `force_delete_lock` can make
on a lock path: `true` means the call returns, `false` means it raises.
Each `try` block of the function succeeds exactly when all of its calls do. -/
structure LockFsOutcome where
  unlinkPlain : Bool
  chmodOk : Bool
  unlinkAfterChmod : Bool
  truncateOk : Bool
  unlinkAfterTruncate : Bool
  renameOk : Bool
deriving DecidableEq, Repr

/-- Success of each strategy of `force_delete_lock`, in source order:
plain `unlink`; `chmod` then `unlink`; truncate (open for write) then
`unlink`; rename to a timestamped sidecar. -/
def lockStrategySucceeds (o : LockFsOutcome) : LockStrategy → Bool
  | .plainDelete => o.unlinkPlain
  | .chmodDelete => o.chmodOk && o.unlinkAfterChmod
  | .truncateDelete => o.truncateOk && o.unlinkAfterTruncate
  | .renameStale => o.renameOk

/-- The fixed escalation order of `force_delete_lock`. -/
def lockStrategyOrder : List LockStrategy :=
  [.plainDelete, .chmodDelete, .truncateDelete, .renameStale]

/-- hydraql.py `force_delete_lock` (lines 177-203): try each strategy in
order inside its own `try`/`except`, return `True` at the first success;
after all four fail, print a warning and return `False`. The result carries
the list of strategies actually attempted. Every exception is caught, so the
function itself never raises (it is total here). -/
def force_delete_lock (o : LockFsOutcome) : Bool × List LockStrategy :=
  if lockStrategySucceeds o .plainDelete then
    (true, [.plainDelete])
  else if lockStrategySucceeds o .chmodDelete then
    (true, [.plainDelete, .chmodDelete])
  else if lockStrategySucceeds o .truncateDelete then
    (true, [.plainDelete, .chmodDelete, .truncateDelete])
  else if lockStrategySucceeds o .renameStale then
    (true, lockStrategyOrder)
  else
    (false, lockStrategyOrder)

/-- hydraql.py `EXCLUDE_DIRS` (line 241). -/
def EXCLUDE_DIRS : List Str :=
  ["default/cache", "logs", "results", "working", "diagnostic"].map
    String.toList

/-- One entry of `db_dir.rglob('*')`: whether it is a directory, and its
path relative to the database root rendered with `as_posix()`. -/
structure WalkEntry where
  isDir : Bool
  rel : Str
deriving DecidableEq, Repr

/-- The exclusion test of `is_db_empty` (lines 248 and 251): the relative
path starts (as a string) with one of the `EXCLUDE_DIRS` entries. -/
def relExcluded (rel : Str) : Bool :=
  EXCLUDE_DIRS.any (fun x => x.isPrefixOf rel)

/-- The counting loop of `is_db_empty` (lines 244-254) with the running
`count`: directories are skipped, excluded-prefix files are skipped, other
files are counted, and the walk stops with `False` once the count
exceeds 50. -/
def is_db_empty_go : Nat → List WalkEntry → Bool
  | _, [] => true
  | count, e :: rest =>
    if e.isDir then is_db_empty_go count rest
    else if relExcluded e.rel then is_db_empty_go count rest
    else if 50 < count + 1 then false
    else is_db_empty_go (count + 1) rest

/-- hydraql.py `is_db_empty` (lines 243-254) over the walk of the database
root. -/
def is_db_empty (walk : List WalkEntry) : Bool :=
  is_db_empty_go 0 walk

/-- Membership of a relative path in one of the excluded housekeeping
subtrees, following the specification's words: the path lies strictly below
one of the named directories. Modelled from the spec for comparison with the
string-prefix test the code uses. -/
def relInExcludedSubtree (rel : Str) : Bool :=
  EXCLUDE_DIRS.any (fun x => (x ++ ['/']).isPrefixOf rel)

/-- Number of files of a walk that lie outside every excluded housekeeping
subtree (the quantity the specification's emptiness sentence counts). -/
def filesOutsideExcludedSubtrees (walk : List WalkEntry) : Nat :=
  (walk.filter (fun e => !e.isDir && !relInExcludedSubtree e.rel)).length

/-- Emptiness as the specification words it: no more than 50 files outside
the excluded subtrees. -/
def is_db_empty_spec (walk : List WalkEntry) : Bool :=
  filesOutsideExcludedSubtrees walk ≤ 50

/-- Number of files of a walk that survive the code's string-prefix
exclusion test. -/
def filesOutsidePrefixes (walk : List WalkEntry) : Nat :=
  (walk.filter (fun e => !e.isDir && !relExcluded e.rel)).length

/-- The skip decision of `detect_databases` (line 293): an empty-looking
database is skipped unless `--force-scan-unready` is set. -/
def detect_skip_empty (forceScanUnready : Bool) (walk : List WalkEntry) :
    Bool :=
  !forceScanUnready && is_db_empty walk

/-- Values produced by `json.load` in hydraql.py: `None`, booleans, numbers
(integral values suffice for the integers the program ever renders), strings,
lists and string-keyed dicts, in insertion order. -/
inductive PyVal where
  | null
  | bool (b : Bool)
  | int (n : Int)
  | str (s : Str)
  | list (xs : List PyVal)
  | dict (kvs : List (Str × PyVal))

/-- Python truthiness of a value. -/
def truthy : PyVal → Bool
  | .null => false
  | .bool b => b
  | .int n => n != 0
  | .str s => !s.isEmpty
  | .list xs => !xs.isEmpty
  | .dict kvs => !kvs.isEmpty

/-- Python `a or b` for values: `a` when truthy, else `b`. -/
def pyOr (a b : PyVal) : PyVal := if truthy a then a else b

/-- First value bound to a key in an association list (Python dicts cannot
hold a key twice, so first and last occurrence coincide). -/
def assocFind (kvs : List (Str × PyVal)) (k : Str) : Option PyVal :=
  match kvs with
  | [] => none
  | (k0, v) :: rest => if k0 = k then some v else assocFind rest k

/-- Python `d[k] = v` on an association list: replace the value in place if
the key is present, append otherwise. -/
def assocSet (kvs : List (Str × PyVal)) (k : Str) (v : PyVal) :
    List (Str × PyVal) :=
  match kvs with
  | [] => [(k, v)]
  | (k0, v0) :: rest =>
    if k0 = k then (k0, v) :: rest else (k0, v0) :: assocSet rest k v

/-- Python `obj.get(key, dflt)`: only dicts have `.get`; on any other value
the attribute access raises (`none` result). -/
def PyVal.get (v : PyVal) (k : Str) (dflt : PyVal) : Option PyVal :=
  match v with
  | .dict kvs => some ((assocFind kvs k).getD dflt)
  | _ => none

/-- Python iteration `for x in v`: lists yield their elements, strings yield
one-character strings, dicts yield their keys, any other value raises. -/
def asIter : PyVal → Option (List PyVal)
  | .list xs => some xs
  | .str s => some (s.map (fun c => PyVal.str [c]))
  | .dict kvs => some (kvs.map (fun kv => PyVal.str kv.1))
  | _ => none

/-- Escape one character for Python string `repr` with quote `q`. -/
def pyCharEsc (q : Char) (c : Char) : Str :=
  if c = '\\' then ['\\', '\\']
  else if c = q then ['\\', q]
  else if c = Char.ofNat 10 then ['\\', 'n']
  else if c = Char.ofNat 9 then ['\\', 't']
  else if c = Char.ofNat 13 then ['\\', 'r']
  else [c]

/-- Python `repr` of a string: single quotes, switching to double quotes
when the string contains a single quote but no double quote; backslashes,
quotes and common control characters are escaped. -/
def pyStrRepr (s : Str) : Str :=
  let sq : Char := Char.ofNat 39
  let dq : Char := Char.ofNat 34
  let q : Char := if s.contains sq && !s.contains dq then dq else sq
  q :: (s.map (pyCharEsc q)).flatten ++ [q]

/-- Interleave `", "` between rendered elements. -/
def commaJoin : List Str → Str
  | [] => []
  | [x] => x
  | x :: y :: rest => x ++ ',' :: ' ' :: commaJoin (y :: rest)

mutual

/-- Python `repr` of a value (the common cases the program can print). -/
def pyRepr : PyVal → Str
  | .null => "None".toList
  | .bool true => "True".toList
  | .bool false => "False".toList
  | .int n => (toString n).toList
  | .str s => pyStrRepr s
  | .list xs => '[' :: commaJoin (pyReprElems xs) ++ [']']
  | .dict kvs => Char.ofNat 123 :: commaJoin (pyReprPairs kvs) ++ [Char.ofNat 125]

/-- Renders the elements of a list for `pyRepr`. -/
def pyReprElems : List PyVal → List Str
  | [] => []
  | v :: vs => pyRepr v :: pyReprElems vs

/-- Renders the key-value pairs of a dict for `pyRepr`. -/
def pyReprPairs : List (Str × PyVal) → List Str
  | [] => []
  | p :: ps => (pyStrRepr p.1 ++ ':' :: ' ' :: pyRepr p.2) :: pyReprPairs ps

end

/-- Python `str(v)`: identity on strings, `repr` rendering otherwise. -/
def pyStr : PyVal → Str
  | .str s => s
  | v => pyRepr v

/-- First value bound to a key in a string-to-string association list
(the `Dict[str, str]` built by `build_rule_severity_map`). -/
def strAssocFind (kvs : List (Str × Str)) (k : Str) : Option Str :=
  match kvs with
  | [] => none
  | (k0, v) :: rest => if k0 = k then some v else strAssocFind rest k

/-- Python `d[k] = v` on a string-to-string association list. -/
def strAssocSet (kvs : List (Str × Str)) (k v : Str) : List (Str × Str) :=
  match kvs with
  | [] => [(k, v)]
  | (k0, v0) :: rest =>
    if k0 = k then (k0, v) :: rest else (k0, v0) :: strAssocSet rest k v

/-- Monadic map over `Option`, raising at the first failing element, as a
Python `for` loop over the list does. -/
def mapMOpt (f : α → Option β) : List α → Option (List β)
  | [] => some []
  | x :: xs => do
    let y ← f x
    let ys ← mapMOpt f xs
    some (y :: ys)

/-- Monadic filter over `Option`: elements are tested left to right and kept
when the test returns `true`; a raising test aborts. -/
def filterMOpt (p : α → Option Bool) : List α → Option (List α)
  | [] => some []
  | x :: xs => do
    let b ← p x
    let rest ← filterMOpt p xs
    some (if b then x :: rest else rest)

/-- The per-rule step of `build_rule_severity_map` (lines 399-405): read the
rule's id (or name), its `properties` severity (falling back to
`problem.severity`, then to the default configuration level), and record
`str(rid) -> str(sev)` when the id is truthy. Non-dict rules raise. -/
def ruleMapStep (mapping : List (Str × Str)) (rule : PyVal) :
    Option (List (Str × Str)) := do
  let ridA ← rule.get "id".toList .null
  let ridB ← rule.get "name".toList .null
  let rid := pyOr ridA ridB
  let props := pyOr (← rule.get "properties".toList (.dict [])) (.dict [])
  let sevA ← props.get "severity".toList .null
  let sevB ← props.get "problem.severity".toList .null
  let sev0 := pyOr sevA (pyOr sevB (.str []))
  let sev ← if truthy sev0 then some sev0 else do
    let dc := pyOr (← rule.get "defaultConfiguration".toList (.dict []))
      (.dict [])
    dc.get "level".toList (.str [])
  if truthy rid then some (strAssocSet mapping (pyStr rid) (pyStr sev))
  else some mapping

/-- hydraql.py `build_rule_severity_map` (lines 396-406): fold `ruleMapStep`
over `run.tool.driver.rules` (each `get` defaulting to an empty container,
falsy values replaced by empty containers before iteration). -/
def build_rule_severity_map (run : PyVal) : Option (List (Str × Str)) := do
  let tool := pyOr (← run.get "tool".toList (.dict [])) (.dict [])
  let driver := pyOr (← tool.get "driver".toList (.dict [])) (.dict [])
  let rulesV := pyOr (← driver.get "rules".toList (.list [])) (.list [])
  let rules ← asIter rulesV
  rules.foldlM ruleMapStep []

/-- The `candidates` list of `result_matches_severity` (lines 409-412):
the result's own `severity`, `level`, `properties.severity` and
`properties."problem.severity"` strings, with the rule-map severity
appended when the result names a rule found in the map (a string key, as
Python dict membership demands here). -/
def resultSeverityCandidates (res : PyVal) (rulesMap : List (Str × Str)) :
    Option (List Str) := do
  let props := pyOr (← res.get "properties".toList (.dict [])) (.dict [])
  let c1 := pyStr (← res.get "severity".toList (.str []))
  let c2 := pyStr (← res.get "level".toList (.str []))
  let c3 := pyStr (← props.get "severity".toList (.str []))
  let c4 := pyStr (← props.get "problem.severity".toList (.str []))
  let ridV ← do
    let a ← res.get "ruleId".toList .null
    if truthy a then some a else do
      let rv ← res.get "rule".toList (.dict [])
      rv.get "id".toList .null
  let extra : List Str :=
    if truthy ridV then
      match ridV with
      | .str s =>
        match strAssocFind rulesMap s with
        | some v => [pyStr (.str v)]
        | none => []
      | _ => []
    else []
  some ([c1, c2, c3, c4] ++ extra)

/-- hydraql.py `result_matches_severity` (lines 408-415): build the
candidate list, then accept when any non-empty candidate passes
`severity_matches` (the `for c in candidates` loop, lines 413-415). -/
def result_matches_severity (res : PyVal) (rulesMap : List (Str × Str))
    (severityFilter : Str) (strict : Bool) : Option Bool := do
  let candidates ← resultSeverityCandidates res rulesMap
  some (candidates.any
    (fun c => !c.isEmpty && severity_matches c severityFilter strict))

/-- The severity selection of `merge_json` / `count_json_findings`
(lines 391 and 539): `str(item.get('severity',''))` falling back lazily to
`level` and then to `properties.severity` (the final access raises when
`properties` is bound to a truthy non-dict, or to `None`). -/
def jsonItemSeverity (item : PyVal) : Option Str := do
  let s1 := pyStr (← item.get "severity".toList (.str []))
  if !s1.isEmpty then some s1 else do
    let s2 := pyStr (← item.get "level".toList (.str []))
    if !s2.isEmpty then some s2 else do
      let p ← item.get "properties".toList (.dict [])
      let s3 ← p.get "severity".toList (.str [])
      some (pyStr s3)

/-- hydraql.py `count_json_findings` (lines 382-394): a read or parse
failure (`none` content) counts zero; a list counts its dict items, a dict
counts the dict items of its `results` value, anything else counts zero;
with a truthy filter an item is counted only when its selected severity
string passes `severity_matches`. -/
def count_json_findings (content : Option PyVal) (f : Option Str)
    (strict : Bool) : Option Nat :=
  match content with
  | none => some 0
  | some data => do
    let itemsV : PyVal :=
      match data with
      | .list _ => data
      | .dict kvs => (assocFind kvs "results".toList).getD (.list [])
      | _ => .list []
    let items ← asIter itemsV
    items.foldlM
      (fun total item =>
        match item with
        | .dict _ =>
          if sevActive f then do
            let sev ← jsonItemSeverity item
            if severity_matches sev (f.getD []) strict then some (total + 1)
            else some total
          else some (total + 1)
        | _ => some total) 0

/-- hydraql.py `count_sarif_findings` (lines 417-429): zero for unreadable
content or a non-dict document; otherwise sum over
`data.get('runs', []) or []` of the results accepted by
`result_matches_severity` (all results when the filter is falsy). -/
def count_sarif_findings (content : Option PyVal) (f : Option Str)
    (strict : Bool) : Option Nat :=
  match content with
  | none => some 0
  | some data =>
    match data with
    | .dict _ => do
      let runsV ← data.get "runs".toList (.list [])
      let runs ← asIter (pyOr runsV (.list []))
      runs.foldlM
        (fun total run => do
          let rm ← build_rule_severity_map run
          let resV ← run.get "results".toList (.list [])
          let ress ← asIter (pyOr resV (.list []))
          ress.foldlM
            (fun t res =>
              if sevActive f then do
                let m ← result_matches_severity res rm (f.getD []) strict
                if m then some (t + 1) else some t
              else some (t + 1)) total) 0
    | _ => some 0

/-- The SARIF schema URL of `merge_sarif` (line 546). -/
def sarifSchemaUrl : Str :=
  "https://schemastore.azurewebsites.net/schemas/json/sarif-2.1.0.json".toList

/-- Python `dict(run)` for a run value: copies a dict's items; the runs
reaching this point are dicts (`build_rule_severity_map` has already
accessed them), any other value raises. -/
def dictItems : PyVal → Option (List (Str × PyVal))
  | .dict kvs => some kvs
  | _ => none

/-- The per-run body of `merge_sarif` (lines 552-562): build the rule
severity map, copy the run (`dict(run)`), and when `run.get('results')` is a
list replace it by the filtered results and contribute their number to the
total; otherwise keep the run as is and contribute zero. -/
def sarifRunUpdate (f : Option Str) (strict : Bool) (run : PyVal) :
    Option (PyVal × Nat) := do
  let rulesMap ← build_rule_severity_map run
  let kvs ← dictItems run
  let resultsV ← run.get "results".toList .null
  match resultsV with
  | .list rs => do
    let filtered ← filterMOpt
      (fun res =>
        if sevActive f then result_matches_severity res rulesMap (f.getD []) strict
        else some true) rs
    some (.dict (assocSet kvs "results".toList (.list filtered)),
      filtered.length)
  | _ => some (.dict kvs, 0)

/-- The runs contributed by one parsed SARIF file (line 552): iterate
`data.get('runs', []) or []` and update each run. -/
def sarifFileRuns (f : Option Str) (strict : Bool) (data : PyVal) :
    Option (List (PyVal × Nat)) := do
  let runsV ← data.get "runs".toList (.list [])
  let runs ← asIter (pyOr runsV (.list []))
  mapMOpt (sarifRunUpdate f strict) runs

/-- The file loop of `merge_sarif` (lines 548-562): skipped files (missing
or unparsable, modelled by `none`) contribute nothing; the runs of the
remaining files are concatenated in file order. -/
def mergeSarifGo (f : Option Str) (strict : Bool) :
    List (Option PyVal) → Option (List (PyVal × Nat))
  | [] => some []
  | none :: rest => mergeSarifGo f strict rest
  | some data :: rest => do
    let ps ← sarifFileRuns f strict data
    let qs ← mergeSarifGo f strict rest
    some (ps ++ qs)

/-- hydraql.py `merge_sarif` (lines 545-564): the merged document (fixed
`$schema` and `version` fields and the accumulated runs) together with the
returned total. -/
def merge_sarif (files : List (Option PyVal)) (f : Option Str)
    (strict : Bool) : Option (PyVal × Nat) := do
  let ps ← mergeSarifGo f strict files
  some (.dict
    [("$schema".toList, .str sarifSchemaUrl),
     ("version".toList, .str "2.1.0".toList),
     ("runs".toList, .list (ps.map Prod.fst))],
    (ps.map Prod.snd).sum)

/-- Length of the `results` array of a run in the merged document (zero when
the run has no list-valued `results` entry). -/
def runResultsLen (run : PyVal) : Nat :=
  match run with
  | .dict kvs =>
    match assocFind kvs "results".toList with
    | some (.list rs) => rs.length
    | _ => 0
  | _ => 0

/-- Output formats of a run (`--output-format`). -/
inductive OutFmt where
  | csv
  | json
  | sarif
deriving DecidableEq, Repr

/-- File extension of an output format. -/
def fmtExt : OutFmt → Str
  | .csv => "csv".toList
  | .json => "json".toList
  | .sarif => "sarif".toList

/-- The per-item output path of `run_query` (line 460):
`{query.stem}_{lang}.{output_format}` inside the private working
directory. -/
def outFileName (stem lang : Str) (fmt : OutFmt) : Str :=
  stem ++ '_' :: lang ++ '.' :: fmtExt fmt

/-- The command-line settings `run_query` consults. -/
structure RunArgs where
  autoFinalizeDb : Bool
  dryRun : Bool
  severityFilter : Option Str
  strictSeverity : Bool

/-- Outcome of one `codeql database analyze` invocation: its exit status
(`ok` iff the return code is zero) and its standard-error text. -/
structure AttemptResult where
  ok : Bool
  stderr : Str

/-- The external behaviour a single `run_query` call observes: the outcome
of the first analyzer attempt, the outcome a retry would see, whether the
expected output file exists afterwards, and the parsed content of that file
per format (`none` modelling an unreadable or unparsable file). -/
structure RunEnv where
  attempt1 : AttemptResult
  attempt2 : AttemptResult
  outExists : Bool
  csvContent : Option (List (List Str))
  jsonContent : Option PyVal

/-- Diagnostic substring marking a finalize-required failure (line 470). -/
def needsFinalizeMsg : Str := "needs to be finalized".toList

/-- First diagnostic substring marking a cache-lock failure (line 471). -/
def lockMsgA : Str := "cache directory is already locked".toList

/-- Second diagnostic substring marking a cache-lock failure (line 471). -/
def lockMsgB : Str := "OverlappingFileLockException".toList

/-- The attempt sequence of `run_query` (lines 467-491): a failing first
attempt is retried exactly once when its diagnostics mark it
finalize-required (with `--auto-finalize-db` on and not a dry run) or
cache-locked; the result is the final exit status and stderr. The
lock-sweep and finalize calls on the recovery path only touch the
filesystem and do not influence this value. -/
def run_attempts (args : RunArgs) (env : RunEnv) : Bool × Str :=
  if env.attempt1.ok then (true, env.attempt1.stderr)
  else
    let err := env.attempt1.stderr
    let needsFin := containsSub err needsFinalizeMsg
    let lockHit := containsSub err lockMsgA || containsSub err lockMsgB
    let retried := (needsFin && args.autoFinalizeDb && !args.dryRun) || lockHit
    if retried then (env.attempt2.ok, env.attempt2.stderr) else (false, err)

/-- The one failure-log line `run_query` appends on terminal failure
(lines 494-495): `FAIL {query} on {lang}:\n{stderr}\n`. -/
def failLogLine (query lang stderr : Str) : Str :=
  "FAIL ".toList ++ query ++ " on ".toList ++ lang ++ ':' :: Char.ofNat 10 ::
    stderr ++ [Char.ofNat 10]

/-- hydraql.py `run_query` (lines 458-511): returns the produced result path
with its finding count, together with the list of failure-log lines the call
appends (one on terminal failure, none otherwise). A terminal failure
returns no path and a zero count; a successful attempt whose expected output
file is missing also returns no path, zero count and no log line. On
success the findings are counted per format; a raising count (malformed
JSON shapes) propagates as `none`. -/
def run_query (fmt : OutFmt) (args : RunArgs) (query stem lang : Str)
    (env : RunEnv) : Option (Option Str × Nat × List Str) :=
  let (ok, stderr) := run_attempts args env
  if !ok then some (none, 0, [failLogLine query lang stderr])
  else if !env.outExists then some (none, 0, [])
  else
    match fmt with
    | .csv =>
      some (some (outFileName stem lang fmt),
        count_csv_findings env.csvContent args.severityFilter
          args.strictSeverity, [])
    | .json =>
      (count_json_findings env.jsonContent args.severityFilter
        args.strictSeverity).map
        (fun n => (some (outFileName stem lang fmt), n, []))
    | .sarif =>
      (count_sarif_findings env.jsonContent args.severityFilter
        args.strictSeverity).map
        (fun n => (some (outFileName stem lang fmt), n, []))

/-- The collection loop of `main` (lines 612-615): of each completed item
`(out_file, count)`, the path (when present) joins the list handed to the
merge stage. -/
def collectFiles (outs : List (Option Str × Nat)) : List Str :=
  outs.filterMap Prod.fst

/-- The summary counter of `main` (line 626): number of per-item counts that
are strictly positive. -/
def withResults (counts : List Nat) : Nat :=
  (counts.filter (fun n => 0 < n)).length

/-- The summary triple of `main` (lines 626-630): queries run, queries with
results, queries without results. Total and aborting are impossible here:
the function is defined for every outcome list. -/
def main_summary (ranPairs : Nat) (counts : List Nat) :
    Nat × Nat × Nat :=
  (ranPairs, withResults counts, ranPairs - withResults counts)

/-- Events `main` and its workers perform on `hydraql_failures.log`:
the single truncation `Path('hydraql_failures.log').write_text("")`
(line 601), a work-item submission (line 611), and an append of one failure
line (lines 494-495). -/
inductive MainLogEvent where
  | truncate
  | submit (item : Nat)
  | append (entry : Str)
deriving DecidableEq

/-- Replay of log events over the failure-log content. -/
def applyLogEvents (log : List Str) : List MainLogEvent → List Str
  | [] => log
  | .truncate :: es => applyLogEvents [] es
  | .append e :: es => applyLogEvents (log ++ [e]) es
  | .submit _ :: es => applyLogEvents log es

/-- The failure-log event trace of one run of `main`: a run that finds no
usable database or no query exits (lines 588 and 595) before touching the
log; a run that proceeds truncates the log (line 601) and then performs the
pool's submissions and appends in some interleaving `sched`. -/
def main_log_events (dbsFound pairsFound : Bool)
    (sched : List MainLogEvent) : List MainLogEvent :=
  if dbsFound && pairsFound then .truncate :: sched else []

/-- The append entries of a schedule, in order. -/
def schedAppends (es : List MainLogEvent) : List Str :=
  es.filterMap (fun e => match e with | .append s => some s | _ => none)

/-- hydraql.py `db_semaphore` (lines 437-443) state: the `_DB_LOCKS` map from
database key to semaphore identifier, plus the next fresh identifier. All
accesses happen under `_DB_LOCKS_MUX`, so lookups are serialized. -/
def db_semaphore (table : List (Nat × Nat)) (fresh : Nat) (db : Nat) :
    (List (Nat × Nat) × Nat) × Nat :=
  match table.lookup db with
  | some s => ((table, fresh), s)
  | none => (((db, fresh) :: table, fresh + 1), fresh)

/-- Positions inside the `with sem:` block of `run_query` (lines 465-499):
the first analyzer attempt (line 467), the recovery work between the
attempts (finalize / lock sweep / backoff, lines 474-490), the retried
attempt (line 491), and the terminal failure-log write (lines 493-495). -/
inductive CritStep where
  | firstAttempt
  | recovering
  | retryAttempt
  | logFailure
deriving DecidableEq, Repr

/-- State of one worker of the pool: idle (between work items), blocked on
`sem.acquire` for a database's gate (line 465), or inside the gate at one of
the `CritStep` positions. Databases are identified by their key. -/
inductive WState where
  | idle
  | waiting (db : Nat)
  | crit (db : Nat) (step : CritStep)
deriving DecidableEq, Repr

/-- Whether a worker currently holds the gate of database `db`. -/
def holdsGateB : WState → Nat → Bool
  | .crit d _, db => d == db
  | _, _ => false

/-- Whether a worker currently has an analyzer process in flight against
database `db` (the two `analyze_once` calls, lines 467 and 491). -/
def analyzerInFlight : WState → Nat → Bool
  | .crit d .firstAttempt, db => d == db
  | .crit d .retryAttempt, db => d == db
  | _, _ => false

/-- One scheduling step of the worker pool, following the control flow of
`run_query`: a worker picks up a work item, acquires the item's database
gate only when no worker holds it (`threading.Semaphore(1)`, line 441),
moves through the attempt/recovery/retry/log positions inside the `with`
block, and releases the gate on leaving the block (success, terminal
failure, or missing output alike). -/
inductive SchedStep {W : Type} [DecidableEq W] :
    (W → WState) → (W → WState) → Prop where
  | start (s : W → WState) (i : W) (db : Nat) :
      s i = .idle → SchedStep s (Function.update s i (.waiting db))
  | acquire (s : W → WState) (i : W) (db : Nat) :
      s i = .waiting db → (∀ j, holdsGateB (s j) db = false) →
      SchedStep s (Function.update s i (.crit db .firstAttempt))
  | firstDone (s : W → WState) (i : W) (db : Nat) :
      s i = .crit db .firstAttempt →
      SchedStep s (Function.update s i .idle)
  | firstFailLog (s : W → WState) (i : W) (db : Nat) :
      s i = .crit db .firstAttempt →
      SchedStep s (Function.update s i (.crit db .logFailure))
  | firstFailRecover (s : W → WState) (i : W) (db : Nat) :
      s i = .crit db .firstAttempt →
      SchedStep s (Function.update s i (.crit db .recovering))
  | retryStart (s : W → WState) (i : W) (db : Nat) :
      s i = .crit db .recovering →
      SchedStep s (Function.update s i (.crit db .retryAttempt))
  | retryDone (s : W → WState) (i : W) (db : Nat) :
      s i = .crit db .retryAttempt →
      SchedStep s (Function.update s i .idle)
  | retryFailLog (s : W → WState) (i : W) (db : Nat) :
      s i = .crit db .retryAttempt →
      SchedStep s (Function.update s i (.crit db .logFailure))
  | logDone (s : W → WState) (i : W) (db : Nat) :
      s i = .crit db .logFailure →
      SchedStep s (Function.update s i .idle)

/-- Pool states reachable from the initial all-idle state. -/
inductive SchedReachable {W : Type} [DecidableEq W] : (W → WState) → Prop
  | init : SchedReachable (fun _ => .idle)
  | step {s t : W → WState} :
      SchedReachable s → SchedStep s t → SchedReachable t

/-- Gate mutual exclusion: at most one worker holds a database's gate. -/
def MutexInv {W : Type} (s : W → WState) : Prop :=
  ∀ i j db, holdsGateB (s i) db = true → holdsGateB (s j) db = true → i = j

/-- Concrete walk whose 51 files only share a name prefix with the `logs`
housekeeping directory without lying inside it (`logs0`, `logs1`, ...). -/
def walkLogsTwins : List WalkEntry :=
  (List.range 51).map (fun i => ⟨false, ("logs" ++ toString i).toList⟩)

/-- Concrete walk of 51 plainly named files outside every exclusion. -/
def walkPlainFiles : List WalkEntry :=
  (List.range 51).map (fun i => ⟨false, ("src" ++ toString i).toList⟩)

/-- Concrete two-worker pool state: worker `true` holds database 7's gate
with its first analyzer attempt in flight. -/
def demoPool : Bool → WState :=
  Function.update
    (Function.update (fun _ => WState.idle) true (WState.waiting 7))
    true (WState.crit 7 .firstAttempt)

/-- Concrete SARIF result object. -/
def demoSarifRes : PyVal := .dict [("severity".toList, .str "HIGH".toList)]

/-- Concrete SARIF run with two results. -/
def demoSarifRun : PyVal :=
  .dict [("tool".toList, .dict []),
    ("results".toList, .list [demoSarifRes, demoSarifRes])]

/-- Concrete parsed SARIF result file with one run. -/
def demoSarifFile : PyVal := .dict [("runs".toList, .list [demoSarifRun])]

/-- The merged document `merge_sarif` produces from `demoSarifFile` with no
severity filter. -/
def demoSarifDoc : PyVal :=
  .dict [("$schema".toList, .str sarifSchemaUrl),
    ("version".toList, .str "2.1.0".toList),
    ("runs".toList, .list [demoSarifRun])]
/-- Items of one parsed JSON result file (merge_json line 535 and
count_json_findings line 387): the document itself when it is a list, its
`results` value when it is a dict (iterating a non-list value raises, via
`asIter`), and the empty list otherwise. -/
def jsonFileItems (data : PyVal) : Option (List PyVal) :=
  asIter
    (match data with
     | .list _ => data
     | .dict kvs => (assocFind kvs "results".toList).getD (.list [])
     | _ => .list [])

/-- The per-item filter decision of `merge_json` (lines 538-540): with a
truthy severity filter, keep the item only when its selected severity
string (`jsonItemSeverity`, which can raise) passes `severity_matches`;
with a falsy filter keep everything. -/
def mergeJsonKeep (f : Option Str) (strict : Bool) (item : PyVal) :
    Option Bool :=
  if sevActive f then do
    let sev ← jsonItemSeverity item
    some (severity_matches sev (f.getD []) strict)
  else some true

/-- The item loop of `merge_json` (lines 536-541): non-dict items are
skipped; surviving items (per `mergeJsonKeep`) are appended in order. -/
def mergeJsonItems (f : Option Str) (strict : Bool) :
    List PyVal → Option (List PyVal)
  | [] => some []
  | item :: rest =>
    match item with
    | .dict kvs => do
      let keep ← mergeJsonKeep f strict (.dict kvs)
      let tail ← mergeJsonItems f strict rest
      some (if keep then .dict kvs :: tail else tail)
    | _ => mergeJsonItems f strict rest

/-- The file loop of `merge_json` (lines 531-541): skipped files (missing or
unparsable, modelled by `none`) contribute nothing; the kept items of the
remaining files are concatenated in file order. -/
def mergeJsonGo (f : Option Str) (strict : Bool) :
    List (Option PyVal) → Option (List PyVal)
  | [] => some []
  | none :: rest => mergeJsonGo f strict rest
  | some data :: rest => do
    let items ← jsonFileItems data
    let kept ← mergeJsonItems f strict items
    let tail ← mergeJsonGo f strict rest
    some (kept ++ tail)

/-- hydraql.py `merge_json` (lines 529-543): the flattened kept items and
the returned count (`len(merged)`). -/
def merge_json (files : List (Option PyVal)) (f : Option Str)
    (strict : Bool) : Option (List PyVal × Nat) :=
  (mergeJsonGo f strict files).map (fun l => (l, l.length))

/-- The `results` array of a run of the merged SARIF document (empty when
the run has no list-valued `results` binding). -/
def runResultsList (run : PyVal) : List PyVal :=
  match run with
  | .dict kvs =>
    match assocFind kvs "results".toList with
    | some (.list rs) => rs
    | _ => []
  | _ => []

/-- Concrete JSON finding object carrying only a `level` field. -/
def demoJsonLevelObj : PyVal := .dict [("level".toList, .str "HIGH".toList)]

/-- Concrete SARIF rule whose metadata severity is HIGH. -/
def demoSarifRuleHigh : PyVal :=
  .dict [("id".toList, .str "R1".toList),
    ("properties".toList, .dict [("severity".toList, .str "HIGH".toList)])]

/-- Concrete SARIF result whose own severity says LOW but which names the
HIGH-severity rule. -/
def demoSarifResLow : PyVal :=
  .dict [("severity".toList, .str "LOW".toList),
    ("ruleId".toList, .str "R1".toList)]

/-- Concrete SARIF run pairing `demoSarifResLow` with `demoSarifRuleHigh`. -/
def demoSarifRunLow : PyVal :=
  .dict [("tool".toList, .dict [("driver".toList,
      .dict [("rules".toList, .list [demoSarifRuleHigh])])]),
    ("results".toList, .list [demoSarifResLow])]

/-- Concrete parsed SARIF file holding `demoSarifRunLow`. -/
def demoSarifFileLow : PyVal :=
  .dict [("runs".toList, .list [demoSarifRunLow])]

/-- The document `merge_sarif` produces from `demoSarifFileLow` under the
strict filter `HIGH` (the run survives unchanged: its only result is kept
through the rule map). -/
def demoSarifDocLow : PyVal :=
  .dict [("$schema".toList, .str sarifSchemaUrl),
    ("version".toList, .str "2.1.0".toList),
    ("runs".toList, .list [demoSarifRunLow])]


/-! ## Claim C4: loose-mode severity matching -/

/-- C4, claim as stated, is false: `severity_matches` has an early
empty-candidate rejection the claimed equivalence omits. At the concrete
input candidate `""`, target `""` (reachable, e.g. an empty severity cell
against a whitespace-only `--severity` value, which is truthy but strips to
the empty string) the claimed acceptance condition holds — the `map_loose`
tier of `""` equals the uppercased target `""` — yet the function returns
`false`. -/
theorem hql_c4_counterexample :
    severity_matches [] [] false = false ∧
    ((map_loose (pyUpper (pyStrip ([] : Str))) == pyUpper (pyStrip ([] : Str))) ||
      containsSub (pyUpper (pyStrip ([] : Str))) (pyUpper (pyStrip ([] : Str))))
      = true := by
  decide

/-- C4, amended: in loose mode `severity_matches candidate target` accepts
exactly when the candidate is non-empty and (the `map_loose` tier of the
stripped uppercased candidate equals the stripped uppercased target, or the
latter occurs as a substring of the former); moreover `map_loose` maps
`note` to `MEDIUM`, `warning` to `HIGH`, `error` to `CRITICAL`, and leaves
any other word uppercased unchanged. -/
theorem hql_c4_amended :
    (∀ c t : Str, severity_matches c t false =
      (!c.isEmpty &&
        ((map_loose (pyUpper (pyStrip c)) == pyUpper (pyStrip t)) ||
          containsSub (pyUpper (pyStrip c)) (pyUpper (pyStrip t))))) ∧
    map_loose "note".toList = "MEDIUM".toList ∧
    map_loose "warning".toList = "HIGH".toList ∧
    map_loose "error".toList = "CRITICAL".toList ∧
    (∀ s : Str, pyLower (pyStrip s) ≠ "error".toList →
      pyLower (pyStrip s) ≠ "warning".toList →
      pyLower (pyStrip s) ≠ "note".toList → map_loose s = pyUpper s) := by
  refine ⟨?_, by decide, by decide, by decide, ?_⟩
  · intro c t
    cases hc : c.isEmpty <;> simp [severity_matches, hc]
  · intro s h1 h2 h3
    have h1' : pyLower (pyStrip s) ≠ ['e', 'r', 'r', 'o', 'r'] := h1
    have h2' : pyLower (pyStrip s) ≠ ['w', 'a', 'r', 'n', 'i', 'n', 'g'] := h2
    have h3' : pyLower (pyStrip s) ≠ ['n', 'o', 't', 'e'] := h3
    simp [map_loose, h1', h2', h3']

/-- Witness for `hql_c4_amended` at the concrete word `info`. -/
theorem hql_c4_witness : map_loose "info".toList = pyUpper "info".toList :=
  hql_c4_amended.2.2.2.2 "info".toList (by decide) (by decide) (by decide)

/-! ## Strict-mode severity helpers (claim C2 continues after the SARIF
lemmas below) -/

/-- Strict-mode acceptance forces equality of the stripped uppercased
severity strings. -/
theorem severity_matches_strict_eq {c t : Str}
    (h : severity_matches c t true = true) :
    pyUpper (pyStrip c) = pyUpper (pyStrip t) := by
  unfold severity_matches at h
  by_cases hc : c.isEmpty
  · simp [hc] at h
  · simpa [hc] using h

/-- Every row appended by `merge_csv` under an active strict filter that
has more than two columns has a strictly matching severity column. -/
theorem merge_csv_strict_rows (files : List (Option (List (List Str))))
    (f : Str) (hf : f ≠ []) :
    ∀ row ∈ merge_csv_rows files (some f) true, 2 < row.length →
      pyUpper (pyStrip (row.getD 2 [])) = pyUpper (pyStrip f) := by
  intro row hrow hlen
  obtain ⟨l, hl, hrl⟩ := List.mem_flatten.mp hrow
  obtain ⟨rows, _, rfl⟩ := List.mem_map.mp hl
  cases rows with
  | nil => simp [csvFileRows] at hrl
  | cons hd rest =>
    simp only [csvFileRows] at hrl
    have hkeep := List.of_mem_filter hrl
    have hfe : f.isEmpty = false := by
      cases f with
      | nil => exact absurd rfl hf
      | cons a l => rfl
    have ha : sevActive (some f) = true := by simp [sevActive, hfe]
    have hb : decide (2 < row.length) = true := decide_eq_true hlen
    unfold csvKeepRow at hkeep
    rw [Bool.not_eq_true', ha, hb] at hkeep
    simp only [Bool.true_and] at hkeep
    rw [Bool.not_eq_false'] at hkeep
    exact severity_matches_strict_eq hkeep

/-! ## Claim C6: CSV header emitted exactly once -/

/-- C6: for every input file list and severity filter setting, the output of
`merge_csv` is the fixed nine-column header followed by exactly the
surviving data rows — so the header is written exactly once, as the first
row, the output is never empty (also with zero surviving rows), and the
returned count is the number of rows after the header. -/
theorem hql_c6 (files : List (Option (List (List Str)))) (f : Option Str)
    (strict : Bool) :
    (merge_csv files f strict).1 =
      fixed_header :: merge_csv_rows files f strict ∧
    (merge_csv files f strict).1 ≠ [] ∧
    (merge_csv files f strict).1.head? = some fixed_header ∧
    (merge_csv files f strict).2 = (merge_csv files f strict).1.length - 1 := by
  refine ⟨rfl, by simp [merge_csv], by simp [merge_csv], by simp [merge_csv]⟩

/-! ## Claim C7: escalating lock removal -/

/-- C7: `force_delete_lock` succeeds exactly when one of its four strategies
does; the strategies it attempts form a prefix of the fixed order
plain-delete, chmod+delete, truncate+delete, rename; every attempted
strategy before the last fails (it stops at the first success); and on
success the last attempted strategy is the succeeding one. Totality of the
function embodies that every exception is caught and none escapes. -/
theorem hql_c7 (o : LockFsOutcome) :
    (force_delete_lock o).1 =
      (lockStrategySucceeds o .plainDelete ||
        lockStrategySucceeds o .chmodDelete ||
        lockStrategySucceeds o .truncateDelete ||
        lockStrategySucceeds o .renameStale) ∧
    (force_delete_lock o).2 <+: lockStrategyOrder ∧
    (∀ s ∈ (force_delete_lock o).2.dropLast, lockStrategySucceeds o s = false) ∧
    ((force_delete_lock o).1 = true →
      lockStrategySucceeds o ((force_delete_lock o).2.getLastD .renameStale)
        = true) := by
  obtain ⟨u1, c2, u2, t3, u3, r4⟩ := o
  cases u1 <;> cases c2 <;> cases u2 <;> cases t3 <;> cases u3 <;> cases r4 <;>
    decide

/-- Witness for `hql_c7`: with only the rename strategy able to succeed, all
four strategies are attempted and the last one succeeds. -/
theorem hql_c7_witness :
    lockStrategySucceeds ⟨false, false, false, false, false, true⟩
      ((force_delete_lock
        ⟨false, false, false, false, false, true⟩).2.getLastD .renameStale)
      = true :=
  (hql_c7 ⟨false, false, false, false, false, true⟩).2.2.2 (by decide)

/-! ## Claim C8: database emptiness classification -/

/-- The walk loop computes a pure threshold test on the number of files
surviving the string-prefix exclusion, for any starting count. -/
theorem is_db_empty_go_eq (walk : List WalkEntry) :
    ∀ count, count ≤ 50 → is_db_empty_go count walk =
      decide (count + filesOutsidePrefixes walk ≤ 50) := by
  induction walk with
  | nil =>
    intro count hc
    simp [is_db_empty_go, filesOutsidePrefixes]
    omega
  | cons e rest ih =>
    intro count hc
    by_cases hd : e.isDir = true
    · simp [is_db_empty_go, hd, filesOutsidePrefixes, List.filter_cons,
        ih count hc]
    · by_cases hx : relExcluded e.rel = true
      · simp [is_db_empty_go, hd, hx, filesOutsidePrefixes,
          List.filter_cons, ih count hc]
      · have hcnt : filesOutsidePrefixes (e :: rest) =
            filesOutsidePrefixes rest + 1 := by
          simp [filesOutsidePrefixes, List.filter_cons, hd, hx]
        rw [Bool.not_eq_true] at hd hx
        by_cases hkeep : 50 < count + 1
        · have hgt : ¬ (count + filesOutsidePrefixes (e :: rest) ≤ 50) := by
            rw [hcnt]; omega
          simp [is_db_empty_go, hd, hx, hkeep, hgt]
        · have hc1 : count + 1 ≤ 50 := by omega
          have : (count + 1) + filesOutsidePrefixes rest =
              count + filesOutsidePrefixes (e :: rest) := by rw [hcnt]; omega
          simp [is_db_empty_go, hd, hx, hkeep, ih (count + 1) hc1, this]

/-- C8, claim as stated, is false: the code excludes by string prefix
(`rel.startswith(x)`), not by subtree membership. A walk of 51 files named
`logs0` ... `logs50`, all at the database root and none inside any excluded
housekeeping subtree, is classified Empty by the code although it has more
than 50 files outside those subtrees. -/
theorem hql_c8_counterexample :
    is_db_empty walkLogsTwins = true ∧
    is_db_empty_spec walkLogsTwins = false := by
  constructor
  · rfl
  · rfl

/-- C8, amended: `is_db_empty` classifies a database as Empty iff the walk
holds at most 50 files whose relative path does not start — as a string
prefix, so sibling entries such as a top-level `logs0` file are excluded
too — with one of `default/cache`, `logs`, `results`, `working`,
`diagnostic`; the walk short-circuits to a non-Empty verdict as soon as the
threshold is exceeded (any extension of such a walk is non-Empty); and
`detect_databases` skips an Empty database exactly when the force override
is off. -/
theorem hql_c8_amended :
    (∀ walk, is_db_empty walk = decide (filesOutsidePrefixes walk ≤ 50)) ∧
    (∀ w1 w2, 50 < filesOutsidePrefixes w1 →
      is_db_empty (w1 ++ w2) = false) ∧
    (∀ force walk, detect_skip_empty force walk =
      (!force && is_db_empty walk)) ∧
    (∀ walk, detect_skip_empty true walk = false) := by
  have hmain : ∀ walk, is_db_empty walk =
      decide (filesOutsidePrefixes walk ≤ 50) := by
    intro walk
    simpa using is_db_empty_go_eq walk 0 (by omega)
  refine ⟨hmain, ?_, fun force walk => rfl, fun walk => rfl⟩
  intro w1 w2 h
  have hsplit : filesOutsidePrefixes (w1 ++ w2) =
      filesOutsidePrefixes w1 + filesOutsidePrefixes w2 := by
    simp [filesOutsidePrefixes, List.filter_append]
  rw [hmain, hsplit]
  simp only [decide_eq_false_iff_not]
  omega

/-- Witness for `hql_c8_amended`: a walk already holding 51 plainly named
files stays non-Empty however it is extended. -/
theorem hql_c8_witness :
    is_db_empty (walkPlainFiles ++ [⟨false, "x".toList⟩]) = false :=
  hql_c8_amended.2.1 walkPlainFiles [⟨false, "x".toList⟩] (by decide)

/-! ## Claim C9: failure-log truncation at run start -/

/-- Replaying a truncation-free event list appends exactly its append
entries to the current log content. -/
theorem applyLogEvents_no_truncate (es : List MainLogEvent) :
    ∀ log, MainLogEvent.truncate ∉ es →
      applyLogEvents log es = log ++ schedAppends es := by
  induction es with
  | nil => intro log _; simp [applyLogEvents, schedAppends]
  | cons e rest ih =>
    intro log ht
    have hte : e ≠ MainLogEvent.truncate := by
      intro h; exact ht (h ▸ List.mem_cons_self e rest)
    have htr : MainLogEvent.truncate ∉ rest := fun h =>
      ht (List.mem_cons_of_mem e h)
    cases e with
    | truncate => exact absurd rfl hte
    | submit i => simp [applyLogEvents, schedAppends, ih log htr]
    | append s =>
      simp [applyLogEvents, schedAppends, ih (log ++ [s]) htr]

/-- C9, claim as stated, is false: a run of `main` that finds no usable
database (or no query) exits before line 601 and never truncates
`hydraql_failures.log`, so its previous entries survive such a run.
Concrete input: a run with no databases found, against a log holding one old
entry. -/
theorem hql_c9_counterexample :
    ¬ (∀ (dbs pairs : Bool) (sched : List MainLogEvent) (old : List Str),
      MainLogEvent.truncate ∈ main_log_events dbs pairs sched ∧
      applyLogEvents old (main_log_events dbs pairs sched) =
        schedAppends sched) := by
  intro h
  have := (h false false [] ["old".toList]).1
  simp [main_log_events] at this

/-- C9, amended: in every run that proceeds to submission (databases and
queries both found), the first failure-log event is the truncation, it
precedes every submission and append of the worker pool, and the final log
content is exactly the failure lines appended during this run — entries
from previous runs are never retained in such a run, whatever the pool's
interleaving. The pool itself never truncates, which is the stated
hypothesis. -/
theorem hql_c9_amended (sched : List MainLogEvent) (old : List Str)
    (ht : MainLogEvent.truncate ∉ sched) :
    (main_log_events true true sched).head? = some .truncate ∧
    applyLogEvents old (main_log_events true true sched) =
      schedAppends sched ∧
    applyLogEvents old (main_log_events true true sched) =
      applyLogEvents [] (main_log_events true true sched) := by
  have h1 : applyLogEvents old (main_log_events true true sched) =
      schedAppends sched := by
    simp only [main_log_events, Bool.and_self, if_true, applyLogEvents]
    simpa using applyLogEvents_no_truncate sched [] ht
  have h2 : applyLogEvents [] (main_log_events true true sched) =
      schedAppends sched := by
    simp only [main_log_events, Bool.and_self, if_true, applyLogEvents]
    simpa using applyLogEvents_no_truncate sched [] ht
  exact ⟨rfl, h1, h1.trans h2.symm⟩

/-- Witness for `hql_c9_amended`: one submission and one append after the
truncation, over a log holding an old entry. -/
theorem hql_c9_witness :
    applyLogEvents ["p".toList]
      (main_log_events true true [.submit 0, .append "e".toList]) =
      schedAppends [.submit 0, .append "e".toList] :=
  (hql_c9_amended [.submit 0, .append "e".toList] ["p".toList]
    (by decide)).2.1

/-! ## Claim C3: terminal work-item failure isolation -/

/-- When both analyzer attempts fail, the attempt sequence reports
failure. -/
theorem run_attempts_fst_false (args : RunArgs) {env : RunEnv}
    (h1 : env.attempt1.ok = false) (h2 : env.attempt2.ok = false) :
    (run_attempts args env).1 = false := by
  unfold run_attempts
  rw [h1]
  simp only [Bool.false_eq_true, if_false]
  split
  · exact h2
  · rfl

/-- C3: a work item whose initial attempt fails and whose single retry (when
one is attempted) also fails makes `run_query` return no result path and a
zero count while appending exactly one failure-log line; such an item
contributes nothing to the file list handed to the merge stage, the counted
successes of the other items are unchanged, and the run still computes its
summary (a total function of the outcomes — no abort). -/
theorem hql_c3 (fmt : OutFmt) (args : RunArgs) (query stem lang : Str)
    (env : RunEnv)
    (h1 : env.attempt1.ok = false) (h2 : env.attempt2.ok = false) :
    (∃ e, run_query fmt args query stem lang env = some (none, 0, [e])) ∧
    (∀ pre post : List (Option Str × Nat),
      collectFiles (pre ++ (none, 0) :: post) = collectFiles (pre ++ post)) ∧
    (∀ pre post : List Nat,
      withResults (pre ++ 0 :: post) = withResults (pre ++ post)) ∧
    (∀ ran counts, main_summary ran counts =
      (ran, withResults counts, ran - withResults counts)) := by
  refine ⟨?_, ?_, ?_, fun ran counts => rfl⟩
  · have hatt := run_attempts_fst_false args h1 h2
    unfold run_query
    rcases hra : run_attempts args env with ⟨ok, st⟩
    rw [hra] at hatt
    simp only at hatt
    subst hatt
    exact ⟨failLogLine query lang st, rfl⟩
  · intro pre post
    simp [collectFiles, List.filterMap_append]
  · intro pre post
    simp [withResults, List.filter_append]

/-- Witness for `hql_c3` at a concrete doubly failing environment. -/
theorem hql_c3_witness :
    ∃ e, run_query .csv ⟨true, false, none, false⟩ "q".toList "q".toList
      "java".toList
      ⟨⟨false, "boom".toList⟩, ⟨false, "again".toList⟩, true, none, none⟩ =
      some (none, 0, [e]) :=
  (hql_c3 .csv ⟨true, false, none, false⟩ "q".toList "q".toList
    "java".toList
    ⟨⟨false, "boom".toList⟩, ⟨false, "again".toList⟩, true, none, none⟩
    rfl rfl).1

/-! ## Claim C10: successful attempt with missing output file -/

/-- C10: when the analyzer attempt sequence succeeds but the expected output
file does not exist, `run_query` returns no result path and a zero finding
count without appending any failure-log line, and such an item is counted
among the queries without results: it raises the run's query total by one
while leaving the number of queries with results unchanged. -/
theorem hql_c10 (fmt : OutFmt) (args : RunArgs) (query stem lang : Str)
    (env : RunEnv)
    (h1 : (run_attempts args env).1 = true) (h2 : env.outExists = false) :
    run_query fmt args query stem lang env = some (none, 0, []) ∧
    (∀ pre post : List Nat,
      (pre ++ 0 :: post).length - withResults (pre ++ 0 :: post) =
        ((pre ++ post).length - withResults (pre ++ post)) + 1) := by
  constructor
  · unfold run_query
    rcases hra : run_attempts args env with ⟨ok, st⟩
    rw [hra] at h1
    simp only at h1
    subst h1
    simp [h2]
  · intro pre post
    have heq : withResults (pre ++ 0 :: post) = withResults (pre ++ post) := by
      simp [withResults, List.filter_append]
    have hle : withResults (pre ++ post) ≤ (pre ++ post).length :=
      List.length_filter_le _ _
    rw [heq]
    simp only [List.length_append, List.length_cons]
    simp only [List.length_append] at hle
    omega

/-- Witness for `hql_c10` at a concrete environment whose attempt succeeds
but whose output file is missing. -/
theorem hql_c10_witness :
    run_query .csv ⟨false, false, none, false⟩ "q".toList "q".toList
      "java".toList ⟨⟨true, []⟩, ⟨true, []⟩, false, none, none⟩ =
      some (none, 0, []) :=
  (hql_c10 .csv ⟨false, false, none, false⟩ "q".toList "q".toList
    "java".toList ⟨⟨true, []⟩, ⟨true, []⟩, false, none, none⟩ rfl rfl).1

/-! ## Claim C5: SARIF merge total and structure -/

/-- Setting a key makes it the found binding. -/
theorem assocFind_assocSet_same (kvs : List (Str × PyVal)) (k : Str)
    (v : PyVal) : assocFind (assocSet kvs k v) k = some v := by
  induction kvs with
  | nil => simp [assocSet, assocFind]
  | cons kv rest ih =>
    by_cases hk : kv.1 = k
    · simp [assocSet, assocFind, hk]
    · simp [assocSet, assocFind, hk, ih]

/-- Setting a key leaves every other binding unchanged. -/
theorem assocFind_assocSet_ne (kvs : List (Str × PyVal)) (k v)
    {k' : Str} (hne : k' ≠ k) :
    assocFind (assocSet kvs k v) k' = assocFind kvs k' := by
  have hkk' : ¬ (k = k') := fun h => hne h.symm
  induction kvs with
  | nil => simp [assocSet, assocFind, hkk']
  | cons kv rest ih =>
    rcases kv with ⟨k0, v0⟩
    simp only [assocSet, assocFind]
    by_cases hk : k0 = k
    · rw [if_pos hk]
      have h1 : ¬ (k0 = k') := fun h => hne (h ▸ hk)
      simp [assocFind, h1]
    · rw [if_neg hk]
      by_cases hk' : k0 = k'
      · simp [assocFind, hk']
      · simp [assocFind, hk', ih]

/-- Every element of a `mapMOpt` output comes from an input element. -/
theorem mapMOpt_mem {g : α → Option β} :
    ∀ {xs : List α} {ys : List β}, mapMOpt g xs = some ys →
      ∀ y ∈ ys, ∃ x ∈ xs, g x = some y := by
  intro xs
  induction xs with
  | nil =>
    intro ys h y hy
    simp [mapMOpt] at h
    subst h
    simp at hy
  | cons x rest ih =>
    intro ys h y hy
    rcases hx : g x with _ | y0
    · simp [mapMOpt, hx] at h
    · rcases hrest : mapMOpt g rest with _ | ys0
      · simp [mapMOpt, hx, hrest] at h
      · simp [mapMOpt, hx, hrest] at h
        subst h
        rcases List.mem_cons.mp hy with h | h
        · exact ⟨x, List.mem_cons_self x rest, h ▸ hx⟩
        · obtain ⟨x0, hx0, hg⟩ := ih hrest y h
          exact ⟨x0, List.mem_cons_of_mem x hx0, hg⟩

/-- A dict whose `results` binding is not a list has a zero-length results
array. -/
theorem runResultsLen_dict_zero {kvs : List (Str × PyVal)}
    (h : ∀ rs, assocFind kvs ("results".toList) ≠ some (.list rs)) :
    runResultsLen (.dict kvs) = 0 := by
  rcases hfind : assocFind kvs ("results".toList) with _ | v
  · unfold runResultsLen
    dsimp only
    rw [hfind]
  · cases v with
    | list rs => exact absurd hfind (h rs)
    | null => unfold runResultsLen; dsimp only; rw [hfind]
    | bool b => unfold runResultsLen; dsimp only; rw [hfind]
    | int n => unfold runResultsLen; dsimp only; rw [hfind]
    | str s => unfold runResultsLen; dsimp only; rw [hfind]
    | dict kvs2 => unfold runResultsLen; dsimp only; rw [hfind]

/-- The per-run SARIF update contributes exactly the length of its run's
post-filter results array, and preserves every binding of the run other
than `results`. -/
theorem sarifRunUpdate_spec {f : Option Str} {strict : Bool} {run : PyVal}
    {p : PyVal × Nat} (h : sarifRunUpdate f strict run = some p) :
    p.2 = runResultsLen p.1 ∧
    ∃ kvs nkvs, run = .dict kvs ∧ p.1 = .dict nkvs ∧
      ∀ k, k ≠ "results".toList → assocFind nkvs k = assocFind kvs k := by
  cases run with
  | dict kvs =>
    unfold sarifRunUpdate at h
    rcases hbm : build_rule_severity_map (.dict kvs) with _ | rm <;>
      rw [hbm] at h
    · simp at h
    · dsimp only [Bind.bind, Option.bind, dictItems, PyVal.get] at h
      cases hv : (assocFind kvs "results".toList).getD PyVal.null
      case list rs =>
        rw [hv] at h
        dsimp only at h
        rcases hf : filterMOpt
            (fun res => if sevActive f = true then
              result_matches_severity res rm (f.getD []) strict
              else some true) rs with _ | filtered
        · rw [hf] at h
          dsimp only at h
          exact absurd h (by simp)
        · rw [hf] at h
          dsimp only at h
          injection h with h
          subst h
          constructor
          · dsimp only
            unfold runResultsLen
            dsimp only
            rw [assocFind_assocSet_same]
          · exact ⟨kvs, _, rfl, rfl,
              fun k hk => assocFind_assocSet_ne kvs _ _ hk⟩
      all_goals
        rw [hv] at h
        dsimp only at h
        injection h with h
        subst h
        refine ⟨?_, kvs, kvs, rfl, rfl, fun k _ => rfl⟩
        exact (runResultsLen_dict_zero
          (fun rs hc => by rw [hc] at hv; simp at hv)).symm
  | null =>
    rw [show sarifRunUpdate f strict PyVal.null = none from rfl] at h
    exact Option.noConfusion h
  | bool b =>
    rw [show sarifRunUpdate f strict (PyVal.bool b) = none from rfl] at h
    exact Option.noConfusion h
  | int n =>
    rw [show sarifRunUpdate f strict (PyVal.int n) = none from rfl] at h
    exact Option.noConfusion h
  | str s =>
    rw [show sarifRunUpdate f strict (PyVal.str s) = none from rfl] at h
    exact Option.noConfusion h
  | list xs =>
    rw [show sarifRunUpdate f strict (PyVal.list xs) = none from rfl] at h
    exact Option.noConfusion h

/-- Every run pair produced for one file comes from a run of that file's
`runs` iteration. -/
theorem sarifFileRuns_mem {f : Option Str} {strict : Bool} {data : PyVal}
    {pairs : List (PyVal × Nat)}
    (h : sarifFileRuns f strict data = some pairs)
    {p : PyVal × Nat} (hp : p ∈ pairs) :
    ∃ rv lst run, PyVal.get data "runs".toList (.list []) = some rv ∧
      asIter (pyOr rv (.list [])) = some lst ∧ run ∈ lst ∧
      sarifRunUpdate f strict run = some p := by
  unfold sarifFileRuns at h
  rcases hrv : PyVal.get data "runs".toList (.list []) with _ | rv <;>
    rw [hrv] at h <;> dsimp only [Bind.bind, Option.bind] at h
  · exact Option.noConfusion h
  · rcases hl : asIter (pyOr rv (.list [])) with _ | lst <;>
      rw [hl] at h <;> dsimp only at h
    · exact Option.noConfusion h
    · obtain ⟨run, hrun, hupd⟩ := mapMOpt_mem h p hp
      exact ⟨rv, lst, run, rfl, hl, hrun, hupd⟩

/-- Every run pair of the merged accumulation comes from some parsed input
file. -/
theorem mergeSarifGo_mem {f : Option Str} {strict : Bool} :
    ∀ {files : List (Option PyVal)} {ps : List (PyVal × Nat)},
      mergeSarifGo f strict files = some ps → ∀ p ∈ ps,
        ∃ data, some data ∈ files ∧
          ∃ pairs, sarifFileRuns f strict data = some pairs ∧ p ∈ pairs := by
  intro files
  induction files with
  | nil =>
    intro ps h p hp
    injection h with h
    subst h
    simp at hp
  | cons file rest ih =>
    intro ps h p hp
    cases file with
    | none =>
      obtain ⟨data, hdata, pairs, hpairs, hmem⟩ := ih h p hp
      exact ⟨data, List.mem_cons_of_mem _ hdata, pairs, hpairs, hmem⟩
    | some data0 =>
      unfold mergeSarifGo at h
      rcases hfr : sarifFileRuns f strict data0 with _ | ps1 <;>
        rw [hfr] at h <;> dsimp only [Bind.bind, Option.bind] at h
      · exact Option.noConfusion h
      · rcases hrec : mergeSarifGo f strict rest with _ | qs <;>
          rw [hrec] at h <;> dsimp only at h
        · exact Option.noConfusion h
        · injection h with h
          subst h
          rcases List.mem_append.mp hp with hmem | hmem
          · exact ⟨data0, List.mem_cons_self _ _, ps1, hfr, hmem⟩
          · obtain ⟨data, hdata, pairs, hpairs, hmem'⟩ := ih hrec p hmem
            exact ⟨data, List.mem_cons_of_mem _ hdata, pairs, hpairs, hmem'⟩

/-- C5: whenever `merge_sarif` returns, the merged document carries the
fixed SARIF schema URL and version fields and a `runs` array; the returned
total equals the sum of the lengths of the post-filter results arrays over
every run appended; and every appended run originates from a run of one of
the parsed input files, agrees with it on every binding other than
`results`, and contributes exactly its own results-array length. -/
theorem hql_c5 (files : List (Option PyVal)) (f : Option Str) (strict : Bool)
    (doc : PyVal) (total : Nat)
    (h : merge_sarif files f strict = some (doc, total)) :
    ∃ ps : List (PyVal × Nat),
      doc = .dict [("$schema".toList, .str sarifSchemaUrl),
        ("version".toList, .str "2.1.0".toList),
        ("runs".toList, .list (ps.map Prod.fst))] ∧
      total = ((ps.map Prod.fst).map runResultsLen).sum ∧
      ∀ p ∈ ps, p.2 = runResultsLen p.1 ∧
        ∃ data, some data ∈ files ∧
          ∃ rv lst run, PyVal.get data "runs".toList (.list []) = some rv ∧
            asIter (pyOr rv (.list [])) = some lst ∧ run ∈ lst ∧
            sarifRunUpdate f strict run = some p ∧
            ∃ kvs nkvs, run = .dict kvs ∧ p.1 = .dict nkvs ∧
              ∀ k, k ≠ "results".toList →
                assocFind nkvs k = assocFind kvs k := by
  unfold merge_sarif at h
  rcases hgo : mergeSarifGo f strict files with _ | ps <;>
    rw [hgo] at h <;> dsimp only [Bind.bind, Option.bind] at h
  · exact Option.noConfusion h
  · injection h with h
    injection h with h1 h2
    have hmem : ∀ p ∈ ps, p.2 = runResultsLen p.1 ∧
        ∃ data, some data ∈ files ∧
          ∃ rv lst run, PyVal.get data "runs".toList (.list []) = some rv ∧
            asIter (pyOr rv (.list [])) = some lst ∧ run ∈ lst ∧
            sarifRunUpdate f strict run = some p ∧
            ∃ kvs nkvs, run = .dict kvs ∧ p.1 = .dict nkvs ∧
              ∀ k, k ≠ "results".toList →
                assocFind nkvs k = assocFind kvs k := by
      intro p hp
      obtain ⟨data, hdata, pairs, hpairs, hmem'⟩ := mergeSarifGo_mem hgo p hp
      obtain ⟨rv, lst, run, hrv, hl, hrun, hupd⟩ := sarifFileRuns_mem hpairs hmem'
      obtain ⟨hlen, kvs, nkvs, hkvs, hnkvs, hpres⟩ := sarifRunUpdate_spec hupd
      exact ⟨hlen, data, hdata, rv, lst, run, hrv, hl, hrun, hupd,
        kvs, nkvs, hkvs, hnkvs, hpres⟩
    refine ⟨ps, h1.symm, ?_, hmem⟩
    have hmap : ps.map Prod.snd = ps.map (fun p => runResultsLen p.1) :=
      List.map_congr_left (fun p hp => (hmem p hp).1)
    rw [← h2, hmap, List.map_map]
    rfl

/-- Witness for `hql_c5` at a concrete one-file SARIF merge whose single run
holds two results and no filter is active. -/
theorem hql_c5_witness :
    merge_sarif [some demoSarifFile] none false = some (demoSarifDoc, 2) ∧
    (∃ ps : List (PyVal × Nat),
      demoSarifDoc = .dict [("$schema".toList, .str sarifSchemaUrl),
        ("version".toList, .str "2.1.0".toList),
        ("runs".toList, .list (ps.map Prod.fst))] ∧
      2 = ((ps.map Prod.fst).map runResultsLen).sum ∧
      ∀ p ∈ ps, p.2 = runResultsLen p.1 ∧
        ∃ data, some data ∈ [some demoSarifFile] ∧
          ∃ rv lst run, PyVal.get data "runs".toList (.list []) = some rv ∧
            asIter (pyOr rv (.list [])) = some lst ∧ run ∈ lst ∧
            sarifRunUpdate none false run = some p ∧
            ∃ kvs nkvs, run = .dict kvs ∧ p.1 = .dict nkvs ∧
              ∀ k, k ≠ "results".toList →
                assocFind nkvs k = assocFind kvs k) :=
  ⟨rfl, hql_c5 [some demoSarifFile] none false demoSarifDoc 2 rfl⟩

/-! ## Claim C1: per-database serialization of analyzer invocations -/

/-- Updating a worker to a state holding no gate its previous state did not
hold preserves mutual exclusion. -/
theorem mutex_update_transfer {W : Type} [DecidableEq W] {s : W → WState}
    {i : W} {w : WState} (hinv : MutexInv s)
    (htr : ∀ db, holdsGateB w db = true → holdsGateB (s i) db = true) :
    MutexInv (Function.update s i w) := by
  intro j k db hj hk
  by_cases hji : j = i <;> by_cases hki : k = i
  · rw [hji, hki]
  · subst hji
    rw [Function.update_same] at hj
    rw [Function.update_noteq hki] at hk
    exact hinv _ _ db (htr db hj) hk
  · subst hki
    rw [Function.update_same] at hk
    rw [Function.update_noteq hji] at hj
    exact (hinv _ _ db (htr db hk) hj).symm
  · rw [Function.update_noteq hji] at hj
    rw [Function.update_noteq hki] at hk
    exact hinv j k db hj hk

/-- Acquiring a gate no worker holds preserves mutual exclusion. -/
theorem mutex_update_acquire {W : Type} [DecidableEq W] {s : W → WState}
    {i : W} {db0 : Nat} {st : CritStep} (hinv : MutexInv s)
    (hg : ∀ j, holdsGateB (s j) db0 = false) :
    MutexInv (Function.update s i (.crit db0 st)) := by
  intro j k db hj hk
  by_cases hji : j = i <;> by_cases hki : k = i
  · rw [hji, hki]
  · subst hji
    rw [Function.update_same] at hj
    rw [Function.update_noteq hki] at hk
    have hdb : db0 = db := by simpa [holdsGateB] using hj
    subst hdb
    rw [hg _] at hk
    exact Bool.noConfusion hk
  · subst hki
    rw [Function.update_same] at hk
    rw [Function.update_noteq hji] at hj
    have hdb : db0 = db := by simpa [holdsGateB] using hk
    subst hdb
    rw [hg _] at hj
    exact Bool.noConfusion hj
  · rw [Function.update_noteq hji] at hj
    rw [Function.update_noteq hki] at hk
    exact hinv j k db hj hk

/-- Every pool step preserves gate mutual exclusion: the only step that
creates a holder is `acquire`, and it is guarded by the gate being free. -/
theorem sched_step_mutex {W : Type} [DecidableEq W] {s t : W → WState}
    (hinv : MutexInv s) (hst : SchedStep s t) : MutexInv t := by
  cases hst with
  | start i db hi =>
    exact mutex_update_transfer hinv (fun d hd => by simp [holdsGateB] at hd)
  | acquire i db hi hg => exact mutex_update_acquire hinv hg
  | firstDone i db hi =>
    exact mutex_update_transfer hinv (fun d hd => by simp [holdsGateB] at hd)
  | firstFailLog i db hi =>
    exact mutex_update_transfer hinv (fun d hd => by rw [hi]; exact hd)
  | firstFailRecover i db hi =>
    exact mutex_update_transfer hinv (fun d hd => by rw [hi]; exact hd)
  | retryStart i db hi =>
    exact mutex_update_transfer hinv (fun d hd => by rw [hi]; exact hd)
  | retryDone i db hi =>
    exact mutex_update_transfer hinv (fun d hd => by simp [holdsGateB] at hd)
  | retryFailLog i db hi =>
    exact mutex_update_transfer hinv (fun d hd => by rw [hi]; exact hd)
  | logDone i db hi =>
    exact mutex_update_transfer hinv (fun d hd => by simp [holdsGateB] at hd)

/-- Gate mutual exclusion holds in every reachable pool state. -/
theorem sched_reachable_mutex {W : Type} [DecidableEq W] {s : W → WState}
    (h : SchedReachable s) : MutexInv s := by
  induction h with
  | init => intro j k db hj hk; simp [holdsGateB] at hj
  | step _ hst ih => exact sched_step_mutex ih hst

/-- C1: an analyzer attempt (first or retried) runs only while its worker
holds the database's gate — `run_query` acquires the semaphore before the
first attempt and the retry happens inside the same `with sem:` block — and
in every reachable pool state at most one worker has an analyzer invocation
in flight against any given database, whatever the pool size `W`. -/
theorem hql_c1 (W : Type) [DecidableEq W] :
    (∀ (w : WState) (db : Nat), analyzerInFlight w db = true →
      holdsGateB w db = true) ∧
    (∀ s : W → WState, SchedReachable s → ∀ i j db,
      analyzerInFlight (s i) db = true → analyzerInFlight (s j) db = true →
      i = j) := by
  have hah : ∀ (w : WState) (db : Nat), analyzerInFlight w db = true →
      holdsGateB w db = true := by
    intro w db h
    cases w with
    | idle => simp [analyzerInFlight] at h
    | waiting d => simp [analyzerInFlight] at h
    | crit d st =>
      cases st with
      | firstAttempt => exact h
      | recovering => simp [analyzerInFlight] at h
      | retryAttempt => exact h
      | logFailure => simp [analyzerInFlight] at h
  refine ⟨hah, ?_⟩
  intro s hs i j db hi hj
  exact sched_reachable_mutex hs i j db (hah _ _ hi) (hah _ _ hj)

/-- The concrete two-worker state `demoPool` is reachable: worker `true`
picks up a work item for database 7 and acquires its free gate. -/
theorem demoPool_reachable : SchedReachable demoPool := by
  unfold demoPool
  refine SchedReachable.step
    (SchedReachable.step SchedReachable.init
      (SchedStep.start (fun _ => WState.idle) true 7 rfl))
    (SchedStep.acquire _ true 7 ?_ ?_)
  · simp [Function.update]
  · intro j
    cases j <;> simp [Function.update, holdsGateB]

/-- Witness for `hql_c1` at the reachable two-worker state `demoPool`. -/
theorem hql_c1_witness :
    holdsGateB (demoPool true) 7 = true ∧ (true : Bool) = true :=
  ⟨(hql_c1 Bool).1 (demoPool true) 7 rfl,
   (hql_c1 Bool).2 demoPool demoPool_reachable true true 7 rfl rfl⟩

/-- Witness for `hql_c6` at an empty input list: the output is exactly the
header row. -/
theorem hql_c6_witness :
    (merge_csv [] none false).1 = fixed_header :: merge_csv_rows [] none false :=
  (hql_c6 [] none false).1

/-! ## Claim C2: strict-mode severity of all three merged aggregates -/

/-- A non-empty severity filter is truthy. -/
theorem sevActive_some {f : Str} (hf : f ≠ []) : sevActive (some f) = true := by
  cases f with
  | nil => exact absurd rfl hf
  | cons a l => rfl

/-- Every element kept by `filterMOpt` is an input element whose test
returned `true`. -/
theorem filterMOpt_mem {p : α → Option Bool} :
    ∀ {xs ys : List α}, filterMOpt p xs = some ys →
      ∀ y ∈ ys, y ∈ xs ∧ p y = some true := by
  intro xs
  induction xs with
  | nil =>
    intro ys h y hy
    injection h with h
    subst h
    simp at hy
  | cons x rest ih =>
    intro ys h y hy
    rcases hb : p x with _ | b
    · simp [filterMOpt, hb] at h
    · rcases hr : filterMOpt p rest with _ | r
      · simp [filterMOpt, hb, hr] at h
      · simp [filterMOpt, hb, hr] at h
        subst h
        cases b with
        | false =>
          simp at hy
          obtain ⟨hmem, hp⟩ := ih hr y hy
          exact ⟨List.mem_cons_of_mem _ hmem, hp⟩
        | true =>
          simp at hy
          rcases hy with hy | hy
          · subst hy
            exact ⟨List.mem_cons_self _ _, hb⟩
          · obtain ⟨hmem, hp⟩ := ih hr y hy
            exact ⟨List.mem_cons_of_mem _ hmem, hp⟩

/-- A result accepted under a strict filter has a non-empty candidate whose
stripped uppercased text equals the stripped uppercased filter. -/
theorem result_matches_severity_strict {res : PyVal}
    {rm : List (Str × Str)} {f : Str}
    (h : result_matches_severity res rm f true = some true) :
    ∃ cs, resultSeverityCandidates res rm = some cs ∧
      ∃ c ∈ cs, c ≠ [] ∧ pyUpper (pyStrip c) = pyUpper (pyStrip f) := by
  unfold result_matches_severity at h
  rcases hcs : resultSeverityCandidates res rm with _ | cs <;>
    rw [hcs] at h <;> dsimp only [Bind.bind, Option.bind] at h
  · exact Option.noConfusion h
  · injection h with h
    obtain ⟨c, hc, hcc⟩ := List.any_eq_true.mp h
    have hcc' : (!c.isEmpty) = true ∧ severity_matches c f true = true := by
      simpa using hcc
    obtain ⟨h1, h2⟩ := hcc'
    refine ⟨cs, rfl, c, hc, ?_, severity_matches_strict_eq h2⟩
    intro hceq
    subst hceq
    simp at h1

/-- `build_rule_severity_map` reads only the `tool` binding of a run. -/
theorem build_rule_severity_map_congr {kvs1 kvs2 : List (Str × PyVal)}
    (h : assocFind kvs1 "tool".toList = assocFind kvs2 "tool".toList) :
    build_rule_severity_map (.dict kvs1) =
      build_rule_severity_map (.dict kvs2) := by
  unfold build_rule_severity_map
  dsimp only [PyVal.get]
  rw [h]

/-- A dict whose `results` binding is not a list has an empty results
array. -/
theorem runResultsList_dict_nil {kvs : List (Str × PyVal)}
    (h : ∀ rs, assocFind kvs ("results".toList) ≠ some (.list rs)) :
    runResultsList (.dict kvs) = [] := by
  rcases hfind : assocFind kvs ("results".toList) with _ | v
  · unfold runResultsList
    dsimp only
    rw [hfind]
  · cases v with
    | list rs => exact absurd hfind (h rs)
    | null => unfold runResultsList; dsimp only; rw [hfind]
    | bool b => unfold runResultsList; dsimp only; rw [hfind]
    | int n => unfold runResultsList; dsimp only; rw [hfind]
    | str s => unfold runResultsList; dsimp only; rw [hfind]
    | dict kvs2 => unfold runResultsList; dsimp only; rw [hfind]

/-- Under a truthy severity filter, every result of an updated run's
results array passed `result_matches_severity` against the run's rule
map. -/
theorem sarifRunUpdate_kept {f : Str} {strict : Bool} {run nr : PyVal}
    {n : Nat} (hf : f ≠ [])
    (h : sarifRunUpdate (some f) strict run = some (nr, n)) :
    ∃ rm, build_rule_severity_map run = some rm ∧
      ∀ res ∈ runResultsList nr,
        result_matches_severity res rm f strict = some true := by
  cases run with
  | dict kvs =>
    unfold sarifRunUpdate at h
    rcases hbm : build_rule_severity_map (.dict kvs) with _ | rm <;>
      rw [hbm] at h
    · simp at h
    · dsimp only [Bind.bind, Option.bind, dictItems, PyVal.get] at h
      refine ⟨rm, rfl, ?_⟩
      cases hv : (assocFind kvs "results".toList).getD PyVal.null
      case list rs =>
        rw [hv] at h
        dsimp only at h
        rcases hfil : filterMOpt
            (fun res => if sevActive (some f) = true then
              result_matches_severity res rm ((some f).getD []) strict
              else some true) rs with _ | filtered
        · rw [hfil] at h
          dsimp only at h
          exact absurd h (by simp)
        · rw [hfil] at h
          dsimp only at h
          injection h with h
          injection h with h1 h2
          subst h1
          intro res hres
          have hrl : runResultsList
              (.dict (assocSet kvs "results".toList (.list filtered))) =
              filtered := by
            unfold runResultsList
            dsimp only
            rw [assocFind_assocSet_same]
          rw [hrl] at hres
          have hkeep := (filterMOpt_mem hfil res hres).2
          rw [if_pos (sevActive_some hf)] at hkeep
          exact hkeep
      all_goals
        rw [hv] at h
        dsimp only at h
        injection h with h
        injection h with h1 h2
        subst h1
        intro res hres
        rw [runResultsList_dict_nil
          (fun rs hc => by rw [hc] at hv; simp at hv)] at hres
        simp at hres
  | null =>
    rw [show sarifRunUpdate (some f) strict PyVal.null = none from rfl] at h
    exact Option.noConfusion h
  | bool b =>
    rw [show sarifRunUpdate (some f) strict (PyVal.bool b) = none from rfl] at h
    exact Option.noConfusion h
  | int n' =>
    rw [show sarifRunUpdate (some f) strict (PyVal.int n') = none from rfl] at h
    exact Option.noConfusion h
  | str s =>
    rw [show sarifRunUpdate (some f) strict (PyVal.str s) = none from rfl] at h
    exact Option.noConfusion h
  | list xs =>
    rw [show sarifRunUpdate (some f) strict (PyVal.list xs) = none from rfl] at h
    exact Option.noConfusion h

/-- Under a truthy severity filter, every item kept by the `merge_json`
item loop has a selected severity string passing `severity_matches`. -/
theorem mergeJsonItems_strict {f : Str} {strict : Bool} (hf : f ≠ []) :
    ∀ {items kept : List PyVal},
      mergeJsonItems (some f) strict items = some kept →
      ∀ obj ∈ kept, ∃ sev, jsonItemSeverity obj = some sev ∧
        severity_matches sev f strict = true := by
  intro items
  induction items with
  | nil =>
    intro kept h obj hobj
    injection h with h
    subst h
    simp at hobj
  | cons item rest ih =>
    intro kept h obj hobj
    cases item with
    | dict kvs =>
      unfold mergeJsonItems at h
      dsimp only [Bind.bind, Option.bind] at h
      rcases hk : mergeJsonKeep (some f) strict (.dict kvs) with _ | keep <;>
        rw [hk] at h <;> dsimp only at h
      · exact Option.noConfusion h
      · rcases hrest : mergeJsonItems (some f) strict rest with _ | tail <;>
          rw [hrest] at h <;> dsimp only at h
        · exact Option.noConfusion h
        · injection h with h
          subst h
          unfold mergeJsonKeep at hk
          rw [if_pos (sevActive_some hf)] at hk
          rcases hsev : jsonItemSeverity (.dict kvs) with _ | sev <;>
            rw [hsev] at hk <;> dsimp only [Bind.bind, Option.bind] at hk
          · exact Option.noConfusion hk
          · injection hk with hk
            cases keep with
            | false =>
              rw [if_neg (by simp)] at hobj
              exact ih hrest obj hobj
            | true =>
              rw [if_pos rfl] at hobj
              rcases List.mem_cons.mp hobj with hobj | hobj
              · subst hobj
                exact ⟨sev, hsev, hk⟩
              · exact ih hrest obj hobj
    | null => exact ih h obj hobj
    | bool b => exact ih h obj hobj
    | int n => exact ih h obj hobj
    | str s => exact ih h obj hobj
    | list xs => exact ih h obj hobj

/-- Under a truthy severity filter, every object kept by `merge_json` has a
selected severity string passing `severity_matches`. -/
theorem mergeJsonGo_strict {f : Str} {strict : Bool} (hf : f ≠ []) :
    ∀ {files : List (Option PyVal)} {out : List PyVal},
      mergeJsonGo (some f) strict files = some out →
      ∀ obj ∈ out, ∃ sev, jsonItemSeverity obj = some sev ∧
        severity_matches sev f strict = true := by
  intro files
  induction files with
  | nil =>
    intro out h obj hobj
    injection h with h
    subst h
    simp at hobj
  | cons file rest ih =>
    intro out h obj hobj
    cases file with
    | none => exact ih h obj hobj
    | some data =>
      unfold mergeJsonGo at h
      rcases hit : jsonFileItems data with _ | items <;>
        rw [hit] at h <;> dsimp only [Bind.bind, Option.bind] at h
      · exact Option.noConfusion h
      · rcases hkept : mergeJsonItems (some f) strict items with _ | kept <;>
          rw [hkept] at h <;> dsimp only at h
        · exact Option.noConfusion h
        · rcases htail : mergeJsonGo (some f) strict rest with _ | tail <;>
            rw [htail] at h <;> dsimp only at h
          · exact Option.noConfusion h
          · injection h with h
            subst h
            rcases List.mem_append.mp hobj with hmem | hmem
            · exact mergeJsonItems_strict hf hkept obj hmem
            · exact ih htail obj hmem

/-- C2, claim as stated, is false for each of the three mergers, at concrete
inputs under the active strict filter `HIGH`:
`merge_csv` appends the two-column data row `x,y` unfiltered (line 522 only
filters rows with more than two columns), and that row has no severity
column; `merge_json` keeps an object whose only severity-bearing field is
`level` — `item.get('severity')` is `None`, so the kept object has no
severity field equal to the filter; and `merge_sarif` keeps a result whose
own severity field reads `LOW` — it survives through its rule's mapped
severity — so its severity field does not equal the filter. -/
theorem hql_c2_counterexample :
    (¬ (∀ row ∈ merge_csv_rows
        [some [["h".toList], ["x".toList, "y".toList]]]
        (some "HIGH".toList) true,
      2 < row.length ∧
        pyUpper (pyStrip (row.getD 2 [])) =
          pyUpper (pyStrip "HIGH".toList))) ∧
    (merge_json [some (.list [demoJsonLevelObj])] (some "HIGH".toList) true =
        some ([demoJsonLevelObj], 1) ∧
      PyVal.get demoJsonLevelObj "severity".toList PyVal.null =
        some PyVal.null) ∧
    (merge_sarif [some demoSarifFileLow] (some "HIGH".toList) true =
        some (demoSarifDocLow, 1) ∧
      runResultsList demoSarifRunLow = [demoSarifResLow] ∧
      PyVal.get demoSarifResLow "severity".toList PyVal.null =
        some (.str "LOW".toList) ∧
      pyUpper (pyStrip "LOW".toList) ≠ pyUpper (pyStrip "HIGH".toList)) := by
  exact ⟨by decide, ⟨rfl, rfl⟩, rfl, rfl, rfl, by decide⟩

/-- C2, amended: when a severity filter is active in strict mode, every row
appended by `merge_csv` that has more than two columns has a severity
column which, stripped and uppercased, equals the stripped and uppercased
filter value (rows with at most two columns bypass the filter); every
object kept by `merge_json` has a selected severity string — its
`severity`, else its `level`, else its `properties` severity, the first
that is non-empty — that, stripped and uppercased, equals the stripped and
uppercased filter value; and every result kept in a run of the
`merge_sarif` document has at least one non-empty severity candidate — its
own `severity`, `level`, `properties` severity, `properties`
problem-severity, or its rule's mapped severity — that, stripped and
uppercased, equals the stripped and uppercased filter value. -/
theorem hql_c2_amended (f : Str) (hf : f ≠ []) :
    (∀ files, ∀ row ∈ merge_csv_rows files (some f) true, 2 < row.length →
      pyUpper (pyStrip (row.getD 2 [])) = pyUpper (pyStrip f)) ∧
    (∀ files out n, merge_json files (some f) true = some (out, n) →
      ∀ obj ∈ out, ∃ sev, jsonItemSeverity obj = some sev ∧ sev ≠ [] ∧
        pyUpper (pyStrip sev) = pyUpper (pyStrip f)) ∧
    (∀ files doc total, merge_sarif files (some f) true = some (doc, total) →
      ∀ kvs runsList, doc = PyVal.dict kvs →
        assocFind kvs "runs".toList = some (.list runsList) →
        ∀ nr ∈ runsList, ∀ res ∈ runResultsList nr,
          ∃ rm cs, build_rule_severity_map nr = some rm ∧
            resultSeverityCandidates res rm = some cs ∧
            ∃ c ∈ cs, c ≠ [] ∧
              pyUpper (pyStrip c) = pyUpper (pyStrip f)) := by
  refine ⟨fun files => merge_csv_strict_rows files f hf, ?_, ?_⟩
  · intro files out n h obj hobj
    unfold merge_json at h
    rcases hgo : mergeJsonGo (some f) true files with _ | l <;>
      rw [hgo] at h <;> dsimp only [Option.map] at h
    · exact Option.noConfusion h
    · injection h with h
      injection h with h1 h2
      subst h1
      obtain ⟨sev, hsev, hm⟩ := mergeJsonGo_strict hf hgo obj hobj
      refine ⟨sev, hsev, ?_, severity_matches_strict_eq hm⟩
      intro hseq
      subst hseq
      simp [severity_matches] at hm
  · intro files doc total h kvs runsList hdoc hruns nr hnr res hres
    unfold merge_sarif at h
    rcases hgo : mergeSarifGo (some f) true files with _ | ps <;>
      rw [hgo] at h <;> dsimp only [Bind.bind, Option.bind] at h
    · exact Option.noConfusion h
    · injection h with h
      injection h with h1 h2
      rw [hdoc] at h1
      injection h1 with h1
      subst h1
      have hR : (some (PyVal.list (ps.map Prod.fst)) : Option PyVal) =
          some (.list runsList) := hruns
      injection hR with hR
      injection hR with hR
      subst hR
      obtain ⟨p, hp, hpe⟩ := List.mem_map.mp hnr
      rcases p with ⟨nr', n'⟩
      dsimp only at hpe
      subst hpe
      obtain ⟨data, hdata, pairs, hpairs, hmem'⟩ := mergeSarifGo_mem hgo _ hp
      obtain ⟨rv, lst, run, hrv, hl, hrun, hupd⟩ := sarifFileRuns_mem hpairs hmem'
      obtain ⟨rm, hrm, hkept⟩ := sarifRunUpdate_kept hf hupd
      obtain ⟨_, kvs0, nkvs, hkvs0, hnkvs, hpres⟩ := sarifRunUpdate_spec hupd
      dsimp only at hnkvs
      have hbm_nr : build_rule_severity_map nr' = some rm := by
        rw [hnkvs, build_rule_severity_map_congr (hpres _ (by decide)),
          ← hkvs0]
        exact hrm
      have hm := hkept res hres
      obtain ⟨cs, hcs, c, hc, hcne, hceq⟩ := result_matches_severity_strict hm
      exact ⟨rm, cs, hbm_nr, hcs, c, hc, hcne, hceq⟩

/-- Witness for `hql_c2_amended`: the object kept by `merge_json` from a
single `severity: HIGH` finding under the strict filter `high` has a
selected severity string strictly matching it. -/
theorem hql_c2_witness :
    ∃ sev, jsonItemSeverity
        (.dict [("severity".toList, .str "HIGH".toList)]) = some sev ∧
      sev ≠ [] ∧ pyUpper (pyStrip sev) = pyUpper (pyStrip "high".toList) :=
  (hql_c2_amended "high".toList (by decide)).2.1
    [some (.list [.dict [("severity".toList, .str "HIGH".toList)]])]
    [.dict [("severity".toList, .str "HIGH".toList)]] 1 rfl
    (.dict [("severity".toList, .str "HIGH".toList)])
    (List.mem_singleton.mpr rfl)
